import Mathlib

set_option maxHeartbeats 1000000

/-! Shallow embedding of the ojg JSON writer (package oj), the alt package
defaults, the gd time formatting, and the gen Builder, together with
theorems that check the specification's claims against the translated
code.  Go strings are modelled as Lean `String`s except where byte-level
ordering matters (the key-sorting functions), where they are modelled as
their UTF-8 byte lists.  Buffers (`[]byte`) are modelled as `List Char`
holding the decoded output characters. -/

/-- Options mirrors the fields of `ojg.Options` that the translated code
reads or writes.  Function-valued fields such as `Converter` are omitted:
none of the translated functions touch them. -/
structure Options where
  CreateKey : String := ""
  FullTypePath : Bool := false
  OmitNil : Bool := false
  Indent : Int := 0
  Tab : Bool := false
  «Sort» : Bool := false
  HTMLUnsafe : Bool := false
  TimeFormat : String := ""
  TimeWrap : String := ""
  TimeMap : Bool := false
  NoReflect : Bool := false
  UseTags : Bool := false
  KeyExact : Bool := false
  NestEmbed : Bool := false
  Color : Bool := false
  InitSize : Int := 0
  WriteLimit : Int := 0
deriving DecidableEq

/-- The decimal digit character for `n` (callers pass `n < 10`). -/
def digitCh : Nat → Char
  | 0 => '0'
  | 1 => '1'
  | 2 => '2'
  | 3 => '3'
  | 4 => '4'
  | 5 => '5'
  | 6 => '6'
  | 7 => '7'
  | 8 => '8'
  | _ => '9'

/-- Fuel-indexed helper producing the decimal digits of `n`, most
significant first.  The fuel is always sufficient at use sites. -/
def natDecAux : Nat → Nat → List Char
  | 0, _ => []
  | fuel + 1, n => if n < 10 then [digitCh n] else natDecAux fuel (n / 10) ++ [digitCh (n % 10)]

/-- Decimal digits of a natural number, most significant first. -/
def natDec (n : Nat) : List Char := natDecAux (n + 1) n

/-- Model of Go `strconv.FormatInt(i, 10)` (and of `%d` in `fmt.Sprintf`). -/
def formatInt (i : Int) : List Char :=
  if i < 0 then '-' :: natDec i.natAbs else natDec i.natAbs

/-- Model of Go `fmt.Sprintf("%09d", i)`: zero-pad to total width 9 with the
sign counted in the width; numbers with more digits print in full. -/
def sprintf9 (i : Int) : List Char :=
  let ds := natDec i.natAbs
  if i < 0 then '-' :: (List.replicate (8 - ds.length) '0' ++ ds)
  else List.replicate (9 - ds.length) '0' ++ ds

/-- Go integer division truncates toward zero. -/
def goDiv (a b : Int) : Int := Int.tdiv a b

/-- Opening curly brace character. -/
def obC : Char := '\x7b'

/-- Closing curly brace character. -/
def cbC : Char := '\x7d'

/-- Nanoseconds per second, `int64(time.Second)`. -/
def nsPerSec : Int := 1000000000

/-- The `TimeMap` / `TimeWrap` wrapping prefix of `Writer.appendTime`
(src/unnamed/part_001 lines 240-254).  Note that `wr.CreateKey` and
`wr.TimeWrap` are appended to the buffer verbatim, with no escaping. -/
def appendTimePrefix (o : Options) (buf : List Char) : List Char :=
  if o.TimeMap then
    buf ++ [obC, '"'] ++ o.CreateKey.toList ++ ['"', ':', '"'] ++
      (if o.FullTypePath then "time/Time".toList else "Time".toList) ++
      ['"', ',', '"'] ++ "value".toList ++ ['"', ':']
  else if 0 < o.TimeWrap.length then
    buf ++ [obC, '"'] ++ o.TimeWrap.toList ++ ['"', ':']
  else buf

/-- The switch on `wr.TimeFormat` inside `Writer.appendTime` (lines
255-272). -/
def appendTimeBody (fmtT : Int → String → String) (o : Options) (buf : List Char)
    (nano : Int) : List Char :=
  if o.TimeFormat = "" ∨ o.TimeFormat = "nano" then buf ++ formatInt nano
  else if o.TimeFormat = "second" then
    let secs := goDiv nano nsPerSec
    if 0 < nano then buf ++ formatInt secs ++ ['.'] ++ sprintf9 (nano - secs * nsPerSec)
    else buf ++ formatInt secs ++ ['.'] ++ sprintf9 (-(nano - secs * nsPerSec))
  else buf ++ ['"'] ++ (fmtT nano o.TimeFormat).toList ++ ['"']

/-- Translation of `Writer.appendTime` (src/unnamed/part_001 lines 239-276).
A Go `time.Time` is represented by its `UnixNano` value `nano`.  The layout
branch of the switch delegates Go's `time.Time.Format` to the parameter
`fmtT`; no claim exercises that branch, so the theorems below hold for
every `fmtT`. -/
def appendTime (fmtT : Int → String → String) (o : Options) (buf : List Char)
    (nano : Int) : List Char :=
  let b1 := appendTimePrefix o buf
  let b2 := appendTimeBody fmtT o b1 nano
  if 0 < o.TimeWrap.length ∨ o.TimeMap then b2 ++ [cbC] else b2

/-- Translation of `gd.Time.buildString` (src/gd/time.go lines 48-75).  The
package-level globals `TimeWrap` and `TimeFormat` become the parameters
`timeWrap` and `timeFormat`; the returned list stands for the content of
the `strings.Builder`.  Note the negative-branch expression here is
`-nano - secs*nsPerSec`, with the unary minus applying to `nano` only,
exactly as the Go source parenthesizes it. -/
def gdBuildString (fmtT : Int → String → String) (timeWrap timeFormat : String)
    (nano : Int) : List Char :=
  let buf : List Char := []
  let buf :=
    if 0 < timeWrap.length then buf ++ [obC, '"'] ++ timeWrap.toList ++ ['"', ':'] else buf
  let buf :=
    if timeFormat = "" ∨ timeFormat = "nano" then buf ++ formatInt nano
    else if timeFormat = "second" then
      let secs := goDiv nano nsPerSec
      if 0 < nano then buf ++ formatInt secs ++ ['.'] ++ sprintf9 (nano - secs * nsPerSec)
      else buf ++ formatInt secs ++ ['.'] ++ sprintf9 (-nano - secs * nsPerSec)
    else buf ++ ['"'] ++ (fmtT nano timeFormat).toList ++ ['"']
  if 0 < timeWrap.length then buf ++ [cbC] else buf

/-- Claim C2: for every negative Unix-nanosecond instant, `TimeFormat =
"second"` is claimed to produce a correctly-signed decimal whose fractional
part is the absolute sub-second remainder in exactly 9 digits, in both
`Writer.appendTime` and `gd.Time.buildString`.  The code fails this claim:
`appendTime` at nano = -1 emits "0.000000001" (the sign of the instant is
lost, the emitted number denotes +1ns), and `gd.Time.buildString` at
nano = -1500000000 emits "-1.2500000000" (a 10-digit fractional part that
is not the sub-second remainder, which is 500000000).  This theorem
evaluates both translations at those failing inputs. -/
theorem C2_negative_second_format_fails :
    appendTime (fun _ _ => "") { TimeFormat := "second" } [] (-1) = "0.000000001".toList ∧
    gdBuildString (fun _ _ => "") "" "second" (-1500000000) = "-1.2500000000".toList := by
  constructor <;> decide

/-- A Go floating point value as the writer sees it: either finite, carrying
the digits that `strconv.AppendFloat(buf, v, 'g', -1, bits)` would produce
for it, or one of the three non-finite values. -/
inductive GoFloat
  | finite (digits : String)
  | nan
  | posInf
  | negInf
deriving DecidableEq

/-- Model of Go `strconv.FormatFloat(v, 'g', -1, bits)` restricted to what
the claims need: per the Go standard library, the non-finite values format
as "NaN", "+Inf" and "-Inf" for every verb and bit size. -/
def strconvFormatFloat : GoFloat → String
  | .finite ds => ds
  | .nan => "NaN"
  | .posInf => "+Inf"
  | .negInf => "-Inf"

/-- Translation of the float32 and float64 cases of `Writer.appendJSON`
(src/unnamed/part_001 lines 173-176): the value is appended with
`strconv.AppendFloat`, with no test for NaN or the infinities and no
consultation of any strict flag. -/
def appendJSONFloat (buf : List Char) (v : GoFloat) : List Char :=
  buf ++ (strconvFormatFloat v).toList

/-- Claim C3: NaN and the infinities are claimed to emit the literal null,
or to fail under Strict.  The code fails this claim: the float cases of
`appendJSON` append the `strconv` text of the value unconditionally, so a
NaN emits "NaN" and the infinities emit "+Inf" and "-Inf" — never "null"
and never an error, whatever the strict flag. -/
theorem C3_nonfinite_floats_not_null :
    appendJSONFloat [] .nan = "NaN".toList ∧
    appendJSONFloat [] .posInf = "+Inf".toList ∧
    appendJSONFloat [] .negInf = "-Inf".toList ∧
    appendJSONFloat [] .nan ≠ "null".toList := by
  refine ⟨by decide, by decide, by decide, by decide⟩

/-- The effect of `Writer.MustJSON` (src/unnamed/part_001 lines 48-60) on the
embedded Options record: the only Options field the call writes is
`InitSize`, defaulted to 256 when non-positive.  Every other statement of
the function writes non-Options Writer state (w, buf, findex, the append
function pointers) or only reads Options. -/
def mustJSONOptions (o : Options) : Options :=
  if o.InitSize ≤ 0 then { o with InitSize := 256 } else o

/-- The effect of `Writer.MustWrite` (src/unnamed/part_001 lines 99-114) on
the Options record: `InitSize` is defaulted to 256 and `WriteLimit` to 1024
when non-positive; nothing else in the call writes an Options field. -/
def mustWriteOptions (o : Options) : Options :=
  let o1 := if o.InitSize ≤ 0 then { o with InitSize := 256 } else o
  if o1.WriteLimit ≤ 0 then { o1 with WriteLimit := 1024 } else o1

/-- Claim C4 counterexample: a Writer whose Options has `InitSize = 0` does
not keep its Options intact across `MustJSON` (or `MustWrite`): the call
rewrites `InitSize` to 256, and `MustWrite` also rewrites `WriteLimit`
to 1024. -/
theorem C4_counterexample_initsize_mutated :
    (mustJSONOptions { InitSize := 0 }).InitSize = 256 ∧
    ({ InitSize := 0 } : Options).InitSize = 0 ∧
    (mustWriteOptions { InitSize := 0 }).WriteLimit = 1024 ∧
    ({ InitSize := 0 } : Options).WriteLimit = 0 := by
  refine ⟨by decide, by decide, by decide, by decide⟩

/-- Claim C4 as amended: the encode calls preserve every Options field
except the tuning defaults — `MustJSON` rewrites `InitSize` to 256 when it
is non-positive and `MustWrite` additionally rewrites `WriteLimit` to 1024
when it is non-positive; when both are already positive, every field of the
Options record is unchanged by either call. -/
theorem C4_options_preserved_when_positive (o : Options)
    (h1 : 0 < o.InitSize) (h2 : 0 < o.WriteLimit) :
    mustJSONOptions o = o ∧ mustWriteOptions o = o := by
  have n1 : ¬o.InitSize ≤ 0 := by omega
  have n2 : ¬o.WriteLimit ≤ 0 := by omega
  constructor
  · simp [mustJSONOptions, n1]
  · simp [mustWriteOptions, n1, n2]

/-- Witness for C4's amended theorem at a concrete Options record. -/
theorem C4_options_preserved_witness :
    0 < ({ InitSize := 256, WriteLimit := 1024 } : Options).InitSize ∧
    0 < ({ InitSize := 256, WriteLimit := 1024 } : Options).WriteLimit ∧
    mustJSONOptions { InitSize := 256, WriteLimit := 1024 } =
      { InitSize := 256, WriteLimit := 1024 } ∧
    mustWriteOptions { InitSize := 256, WriteLimit := 1024 } =
      { InitSize := 256, WriteLimit := 1024 } := by
  refine ⟨by decide, by decide, ?_, ?_⟩
  · exact (C4_options_preserved_when_positive _ (by decide) (by decide)).1
  · exact (C4_options_preserved_when_positive _ (by decide) (by decide)).2

/-- The characters the spec says must never appear literally in the output
when HTMLUnsafe is false. -/
def specials : List Char := ['<', '>', '&', '\u2028', '\u2029']

/-- NoSpecials l means no character of l is one of the HTML-escape-safe-mode
forbidden characters. -/
def NoSpecials (l : List Char) : Prop := ∀ c ∈ l, c ∉ specials

theorem noSpecials_nil : NoSpecials [] := by intro c hc; cases hc

theorem noSpecials_append {l1 l2 : List Char} (h1 : NoSpecials l1)
    (h2 : NoSpecials l2) : NoSpecials (l1 ++ l2) := by
  intro c hc
  rcases List.mem_append.mp hc with h | h
  · exact h1 c h
  · exact h2 c h

theorem noSpecials_cons {c0 : Char} {l : List Char} (h0 : c0 ∉ specials)
    (h : NoSpecials l) : NoSpecials (c0 :: l) := by
  intro c hc
  rcases List.mem_cons.mp hc with h' | h'
  · exact h' ▸ h0
  · exact h c h'

theorem digitCh_mem_digits (m : Nat) : digitCh m ∈ ['0','1','2','3','4','5','6','7','8','9'] := by
  match m with
  | 0 | 1 | 2 | 3 | 4 | 5 | 6 | 7 | 8 => decide
  | n + 9 =>
    have h : digitCh (n + 9) = '9' := rfl
    rw [h]; decide

theorem natDecAux_digits (fuel : Nat) :
    ∀ n c, c ∈ natDecAux fuel n → c ∈ ['0','1','2','3','4','5','6','7','8','9'] := by
  induction fuel with
  | zero => intro n c h; simp [natDecAux] at h
  | succ f ih =>
    intro n c h
    simp only [natDecAux] at h
    split at h
    · rcases List.mem_singleton.mp h with rfl
      exact digitCh_mem_digits n
    · rcases List.mem_append.mp h with h' | h'
      · exact ih _ _ h'
      · rcases List.mem_singleton.mp h' with rfl
        exact digitCh_mem_digits (n % 10)

theorem mem_digits_not_special (c : Char)
    (hc : c ∈ ['0','1','2','3','4','5','6','7','8','9']) : c ∉ specials := by
  fin_cases hc <;> decide

theorem noSpecials_natDec (n : Nat) : NoSpecials (natDec n) := by
  intro c hc
  exact mem_digits_not_special c (natDecAux_digits (n + 1) n c hc)

theorem noSpecials_formatInt (i : Int) : NoSpecials (formatInt i) := by
  unfold formatInt
  split
  · exact noSpecials_cons (by decide) (noSpecials_natDec _)
  · exact noSpecials_natDec _

theorem noSpecials_replicate_zero (k : Nat) :
    NoSpecials (List.replicate k '0') := by
  intro c hc
  rcases List.eq_of_mem_replicate hc with rfl
  decide

theorem noSpecials_sprintf9 (i : Int) : NoSpecials (sprintf9 i) := by
  unfold sprintf9
  split
  · exact noSpecials_cons (by decide)
      (noSpecials_append (noSpecials_replicate_zero _) (noSpecials_natDec _))
  · exact noSpecials_append (noSpecials_replicate_zero _) (noSpecials_natDec _)

theorem noSpecials_lit (l : List Char)
    (h : l.all (fun c => decide (c ∉ specials)) = true) : NoSpecials l := by
  intro c hc
  exact of_decide_eq_true (List.all_eq_true.mp h c hc)

/-- The hexadecimal digit character for `n` (callers pass `n < 16`). -/
def hexCh : Nat → Char
  | 0 => '0'
  | 1 => '1'
  | 2 => '2'
  | 3 => '3'
  | 4 => '4'
  | 5 => '5'
  | 6 => '6'
  | 7 => '7'
  | 8 => '8'
  | 9 => '9'
  | 10 => 'a'
  | 11 => 'b'
  | 12 => 'c'
  | 13 => 'd'
  | 14 => 'e'
  | _ => 'f'

/-- The four hex digits of a \uXXXX escape for code point `n`. -/
def hex4 (n : Nat) : List Char :=
  [hexCh (n / 4096 % 16), hexCh (n / 256 % 16), hexCh (n / 16 % 16), hexCh (n % 16)]

/-- Modelled from the spec: the escaping of one character by
`ojg.AppendJSONString` (package ojg, not under src/).  Per the spec (§6 and
the glossary), quotes, backslashes and control characters are always
escaped, and when the writer is in escape-safe mode (`safe = !HTMLUnsafe`)
the characters <, >, & and the separators U+2028/U+2029 are emitted as
\u00XX / \u202X escapes; every other character passes through. -/
def escCharModel (safe : Bool) (c : Char) : List Char :=
  if c = '"' then ['\\', '"']
  else if c = '\\' then ['\\', '\\']
  else if c.toNat < 32 then '\\' :: 'u' :: hex4 c.toNat
  else if safe = true ∧ c ∈ specials then '\\' :: 'u' :: hex4 c.toNat
  else [c]

/-- Modelled from the spec: `ojg.AppendJSONString(buf, s, safe)` appends the
quoted, escaped form of `s` to `buf`. -/
def appendJSONStringModel (buf : List Char) (s : List Char) (safe : Bool) : List Char :=
  buf ++ '"' :: ((s.map (escCharModel safe)).flatten ++ ['"'])

theorem hexCh_not_special (n : Nat) : hexCh n ∉ specials := by
  match n with
  | 0 => decide
  | 1 => decide
  | 2 => decide
  | 3 => decide
  | 4 => decide
  | 5 => decide
  | 6 => decide
  | 7 => decide
  | 8 => decide
  | 9 => decide
  | 10 => decide
  | 11 => decide
  | 12 => decide
  | 13 => decide
  | 14 => decide
  | m + 15 =>
    have h : hexCh (m + 15) = 'f' := rfl
    rw [h]; decide

theorem noSpecials_hex4 (n : Nat) : NoSpecials (hex4 n) := by
  intro c hc
  simp only [hex4, List.mem_cons, List.not_mem_nil, or_false] at hc
  rcases hc with rfl | rfl | rfl | rfl
  all_goals exact hexCh_not_special _

theorem noSpecials_escChar (c : Char) : NoSpecials (escCharModel true c) := by
  unfold escCharModel
  split_ifs with h1 h2 h3 h4
  · exact noSpecials_lit _ (by decide)
  · exact noSpecials_lit _ (by decide)
  · exact noSpecials_cons (by decide) (noSpecials_cons (by decide) (noSpecials_hex4 _))
  · exact noSpecials_cons (by decide) (noSpecials_cons (by decide) (noSpecials_hex4 _))
  · intro x hx
    rcases List.mem_singleton.mp hx with rfl
    intro hs
    exact h4 ⟨rfl, hs⟩

theorem noSpecials_appendTimePrefix (o : Options) (buf : List Char)
    (hW : NoSpecials o.TimeWrap.toList) (hC : NoSpecials o.CreateKey.toList)
    (hB : NoSpecials buf) : NoSpecials (appendTimePrefix o buf) := by
  unfold appendTimePrefix
  split_ifs with h1 h2 h3
  · refine noSpecials_append (noSpecials_append (noSpecials_append
      (noSpecials_append (noSpecials_append (noSpecials_append
        (noSpecials_append hB (noSpecials_lit _ (by decide))) hC)
        (noSpecials_lit _ (by decide))) (noSpecials_lit _ (by decide)))
      (noSpecials_lit _ (by decide))) (noSpecials_lit _ (by decide)))
      (noSpecials_lit _ (by decide))
  · refine noSpecials_append (noSpecials_append (noSpecials_append
      (noSpecials_append (noSpecials_append (noSpecials_append
        (noSpecials_append hB (noSpecials_lit _ (by decide))) hC)
        (noSpecials_lit _ (by decide))) (noSpecials_lit _ (by decide)))
      (noSpecials_lit _ (by decide))) (noSpecials_lit _ (by decide)))
      (noSpecials_lit _ (by decide))
  · exact noSpecials_append (noSpecials_append (noSpecials_append hB
      (noSpecials_lit _ (by decide))) hW) (noSpecials_lit _ (by decide))
  · exact hB

theorem noSpecials_appendTimeBody (fmtT : Int → String → String) (o : Options)
    (buf : List Char) (nano : Int)
    (hTF : o.TimeFormat = "" ∨ o.TimeFormat = "nano" ∨ o.TimeFormat = "second")
    (hB : NoSpecials buf) : NoSpecials (appendTimeBody fmtT o buf nano) := by
  unfold appendTimeBody
  split_ifs with h1 h2 h3
  · exact noSpecials_append hB (noSpecials_formatInt _)
  · exact noSpecials_append (noSpecials_append (noSpecials_append hB
      (noSpecials_formatInt _)) (noSpecials_lit _ (by decide))) (noSpecials_sprintf9 _)
  · exact noSpecials_append (noSpecials_append (noSpecials_append hB
      (noSpecials_formatInt _)) (noSpecials_lit _ (by decide))) (noSpecials_sprintf9 _)
  · rcases hTF with h | h | h
    · exact absurd (Or.inl h) h1
    · exact absurd (Or.inr h) h1
    · exact absurd h h2

/-- Claim C6 counterexample: with `HTMLUnsafe = false` (the default) and
`TimeWrap = "<"`, the writer emits the literal character < — the bytes
contributed by `TimeWrap` (and likewise `CreateKey` and the type name) are
appended verbatim by `appendTime`, with no escaping. -/
theorem C6_counterexample_timewrap_unescaped :
    ({ TimeWrap := "<" } : Options).HTMLUnsafe = false ∧
    '<' ∈ appendTime (fun _ _ => "") { TimeWrap := "<" } [] 0 := by
  refine ⟨by decide, by decide⟩

/-- Claim C6 as amended: strings emitted through `AppendJSONString` contain
no literal <, >, &, U+2028 or U+2029 in escape-safe mode, but the bytes
contributed by `CreateKey`, the type name and `TimeWrap` are appended
verbatim without escaping, so the no-specials guarantee for time emission
holds only when those option strings themselves contain no specials (and
`TimeFormat` is one of the numeric formats "", "nano", "second"; the other
formats emit a layout-formatted string verbatim). -/
theorem C6_no_specials_escaped_amended :
    (∀ (buf s : List Char), NoSpecials buf →
      NoSpecials (appendJSONStringModel buf s true)) ∧
    (∀ (fmtT : Int → String → String) (o : Options) (buf : List Char) (nano : Int),
      (o.TimeFormat = "" ∨ o.TimeFormat = "nano" ∨ o.TimeFormat = "second") →
      NoSpecials o.TimeWrap.toList → NoSpecials o.CreateKey.toList →
      NoSpecials buf → NoSpecials (appendTime fmtT o buf nano)) := by
  constructor
  · intro buf s hb
    unfold appendJSONStringModel
    apply noSpecials_append hb
    apply noSpecials_cons (by decide)
    apply noSpecials_append
    · intro c hc
      rcases List.mem_flatten.mp hc with ⟨l, hl, hcl⟩
      rcases List.mem_map.mp hl with ⟨x, _, rfl⟩
      exact noSpecials_escChar x c hcl
    · exact noSpecials_lit _ (by decide)
  · intro fmtT o buf nano hTF hW hC hB
    unfold appendTime
    have hbody := noSpecials_appendTimeBody fmtT o (appendTimePrefix o buf) nano hTF
      (noSpecials_appendTimePrefix o buf hW hC hB)
    split_ifs with h
    · exact noSpecials_append hbody (noSpecials_lit _ (by decide))
    · exact hbody

/-- Witness for C6's amended theorem: the escaper on "a<b" and the time
emitter at one nanosecond with plain options. -/
theorem C6_no_specials_witness :
    NoSpecials (appendJSONStringModel [] ['a', '<', 'b'] true) ∧
    NoSpecials (appendTime (fun _ _ => "") { TimeFormat := "second" } [] 1) := by
  constructor
  · exact C6_no_specials_escaped_amended.1 [] ['a', '<', 'b'] noSpecials_nil
  · exact C6_no_specials_escaped_amended.2 (fun _ _ => "") { TimeFormat := "second" } [] 1
      (by decide) (noSpecials_lit _ (by decide)) (noSpecials_lit _ (by decide)) noSpecials_nil

/-- Bytewise lexicographic "less" on Go strings viewed as their byte lists:
the order used by `sort.Strings` and `strings.Compare`. -/
def bytesLt : List Nat → List Nat → Bool
  | [], [] => false
  | [], _ :: _ => true
  | _ :: _, [] => false
  | a :: as, b :: bs => if a < b then true else if b < a then false else bytesLt as bs

/-- Model of Go `sort.Strings` (ascending byte order): a sort under the
reflexive closure of `bytesLt`.  `sort.Strings` is fully characterized by
producing a permutation that is non-descending in byte order, which this
insertion sort is. -/
def sortStringsModel (keys : List (List Nat)) : List (List Nat) :=
  keys.insertionSort (fun a b => bytesLt b a = false)

/-- Translation of the key-ordering stage of `appendSortObject`
(src/unnamed/part_001 lines 395-399): the map's keys are collected and
passed to `sort.Strings`; emission then follows the sorted order (entries
whose value is nil may be skipped under OmitNil, which drops keys but never
reorders them). -/
def appendSortObjectKeys (keys : List (List Nat)) : List (List Nat) :=
  sortStringsModel keys

/-- Translation of the key-ordering stage of `appendMap` (src/unnamed/
part_001 lines 607-610): `rv.MapKeys()` yields the keys in unspecified
order (modelled as the given list); when `Sort` is set they are sorted with
`sort.Slice` and the comparator `less(i,j) = 0 < strings.Compare(keys[i],
keys[j])`, which places `keys[i]` before `keys[j]` exactly when `keys[j]`
is bytewise smaller — descending byte order. -/
def appendMapKeys (sortFlag : Bool) (keys : List (List Nat)) : List (List Nat) :=
  if sortFlag then keys.insertionSort (fun a b => bytesLt a b = false) else keys

/-- Claim C1: under `Sort`, emitted object keys are claimed to be in
strictly ascending byte order on both the `map[string]interface{}` path
(`appendSortObject`) and the reflective path (`appendMap`).  The code fails
the claim on the reflective path: `appendMap` sorts keys in descending byte
order.  With the keys "a" = [97] and "b" = [98], `appendSortObject` emits
a before b, but `appendMap` under `Sort` emits b before a, whichever order
the map iteration yields. -/
theorem C1_appendMap_descending_order :
    appendSortObjectKeys [[98], [97]] = [[97], [98]] ∧
    appendMapKeys true [[98], [97]] = [[98], [97]] ∧
    appendMapKeys true [[97], [98]] = [[98], [97]] ∧
    bytesLt [97] [98] = true := by
  refine ⟨by decide, by decide, by decide, by decide⟩

mutual
inductive DVal where
  | null : DVal
  | b : Bool → DVal
  | i : Int → DVal
  | s : String → DVal
  | arr : DList → DVal
  | map : DMap → DVal
  | record : String → DMap → DVal
inductive DList where
  | nil : DList
  | cons : DVal → DList → DList
inductive DMap where
  | nil : DMap
  | cons : String → DVal → DMap → DMap
end

/-- True exactly for the `null` value (Go's nil interface). -/
def DVal.isNull : DVal → Bool
  | .null => true
  | _ => false

/-- Translation of the `init` function of the alt package
(src/unnamed/part_000 lines 37-46): the package-level `DefaultOptions`
(whose prior value, copied from `ojg.DefaultOptions`, is the parameter
`base`) gets `OmitNil = true` and `CreateKey = "type"`. -/
def altInitOptions (base : Options) : Options :=
  { base with OmitNil := true, CreateKey := "type" }

/-- Translation of the option-selection prologue shared by `alt.Decompose`
and `alt.Dup` (src/unnamed/part_000 lines 56-60): the package-level
`DefaultOptions` is used unless an explicit options argument is given. -/
def decomposeSelect (defaultOptions : Options) (options : List Options) : Options :=
  match options with
  | [] => defaultOptions
  | o :: _ => o

/-- Translation of the identical option-selection prologue of `alt.Alter`
(src/unnamed/part_000 lines 71-75). -/
def alterSelect (defaultOptions : Options) (options : List Options) : Options :=
  match options with
  | [] => defaultOptions
  | o :: _ => o

mutual
/-- Modelled from the spec: the recursive reduction `decompose` called by
`alt.Decompose` lives in the alt package outside src/.  Per spec §4.2:
primitives and times return themselves; sequences recurse elementwise;
string-keyed mappings recurse into values and omit entries whose decomposed
value is Null when `OmitNil` is set; record values reflect into a mapping
of their fields and, when `CreateKey` is non-empty, a `{CreateKey:
typeName}` tag entry is injected (the type name is kept abstract as the
record's `typeName`; `FullTypePath` qualification is not modelled). -/
def decompose (o : Options) : DVal → DVal
  | .null => .null
  | .b x => .b x
  | .i n => .i n
  | .s st => .s st
  | .arr l => .arr (decomposeList o l)
  | .map m => .map (decomposeMap o m)
  | .record tn fields =>
    .map (if o.CreateKey = "" then decomposeMap o fields
          else .cons o.CreateKey (.s tn) (decomposeMap o fields))
/-- Elementwise reduction of a sequence (spec §4.2, sequence case). -/
def decomposeList (o : Options) : DList → DList
  | .nil => .nil
  | .cons v r => .cons (decompose o v) (decomposeList o r)
/-- Valuewise reduction of a string-keyed mapping with `OmitNil` skipping
(spec §4.2, mapping case). -/
def decomposeMap (o : Options) : DMap → DMap
  | .nil => .nil
  | .cons k v r =>
    let d := decompose o v
    if o.OmitNil && d.isNull then decomposeMap o r
    else .cons k d (decomposeMap o r)
end

/-- Translation of `alt.Decompose` (src/unnamed/part_000 lines 56-65)
without the `Converter` hook (no options here carry one): select the
options, then reduce. -/
def altDecompose (defaultOptions : Options) (options : List Options) (v : DVal) : DVal :=
  decompose (decomposeSelect defaultOptions options) v

/-- Claim C10: `Decompose` and `Alter` without an explicit options argument
use the package-level `DefaultOptions`, which the alt package initializer
has set to `OmitNil = true` and `CreateKey = "type"`; hence by default
decomposed records are tagged under the key "type" and null-valued mapping
entries are omitted.  `base` ranges over every possible prior value of
`ojg.DefaultOptions`. -/
theorem C10_default_options_omitnil_createkey (base : Options) :
    (altInitOptions base).OmitNil = true ∧
    (altInitOptions base).CreateKey = "type" ∧
    (∀ d : Options, decomposeSelect d [] = d ∧ alterSelect d [] = d) ∧
    altDecompose (altInitOptions base) []
        (.map (.cons "k" .null (.cons "j" (.i 1) .nil))) =
      .map (.cons "j" (.i 1) .nil) ∧
    altDecompose (altInitOptions base) []
        (.record "Person" (.cons "Name" (.s "Bob") .nil)) =
      .map (.cons "type" (.s "Person") (.cons "Name" (.s "Bob") .nil)) := by
  refine ⟨rfl, rfl, fun d => ⟨rfl, rfl⟩, ?_, ?_⟩
  · rfl
  · rfl

/-- A `gen.Node` as it appears on the Builder's stack.  Go objects
(`gen.Object`, a map) are reference values — mutating an attached object is
visible from every holder — so an object node is a reference into the
builder state's heap of objects.  Arrays are built once by `Pop` and never
mutated afterwards, so they can be plain values.  `key` is `gen.Key`, the
marker the builder pushes below a keyed array. -/
inductive GNode where
  | null
  | boolV (b : Bool)
  | intV (i : Int)
  | strV (s : String)
  | key (k : String)
  | arr (elems : List GNode)
  | objRef (r : Nat)

/-- The builder state: the heap of live objects (index = `objRef`), the node
stack, and the parallel start-marker stack (`-1` = object frame,
non-negative = index of an array frame's placeholder slot). -/
structure BState where
  heap : List (List (String × GNode))
  stack : List GNode
  starts : List Int

/-- Go map assignment `obj[k] = v`: replace an existing key or add the
pair. -/
def setPair : List (String × GNode) → String → GNode → List (String × GNode)
  | [], k, v => [(k, v)]
  | (k0, v0) :: rest, k, v =>
    if k0 = k then (k, v) :: rest else (k0, v0) :: setPair rest k v

/-- Outcome of a builder operation: a Go panic (out-of-range index), an
error return, or the updated state. -/
inductive OpResult where
  | panicked
  | errored (msg : String)
  | ok (b : BState)

/-- True exactly on the error outcome. -/
def OpResult.isErrored : OpResult → Bool
  | .errored _ => true
  | _ => false

/-- True exactly on the panic outcome. -/
def OpResult.isPanicked : OpResult → Bool
  | .panicked => true
  | _ => false

/-- The guard `len(b.starts) == 0 || 0 <= b.starts[len(b.starts)-1]` that
rejects a supplied key (src/gen/builder.go lines 29, 48, 65). -/
def keyRefused (starts : List Int) : Bool :=
  match starts.getLast? with
  | none => true
  | some s => decide (0 ≤ s)

/-- The guard `0 < len(b.starts) && b.starts[len(b.starts)-1] < 0` that
rejects a missing key (src/gen/builder.go lines 35, 52, 71). -/
def noKeyRefused (starts : List Int) : Bool :=
  match starts.getLast? with
  | none => false
  | some s => decide (s < 0)

/-- Translation of `Builder.Object` (src/gen/builder.go lines 26-42).  The
optional variadic key becomes `Option String`. -/
def bObject (b : BState) (okey : Option String) : OpResult :=
  let newRef := b.heap.length
  match okey with
  | some k =>
    if keyRefused b.starts then .errored "can not use a key when pushing to an array"
    else
      match b.stack.getLast? with
      | none => OpResult.panicked
      | some top =>
        let heap1 := b.heap ++ [[]]
        let heap2 :=
          match top with
          | .objRef pr => heap1.set pr (setPair (heap1.getD pr []) k (.objRef newRef))
          | _ => heap1
        OpResult.ok
          { heap := heap2, stack := b.stack ++ [.objRef newRef],
            starts := b.starts ++ [-1] }
  | none =>
    if noKeyRefused b.starts then .errored "must have a key when pushing to an object"
    else
      OpResult.ok
        { heap := b.heap ++ [[]], stack := b.stack ++ [.objRef newRef],
          starts := b.starts ++ [-1] }

/-- Translation of `Builder.Array` (src/gen/builder.go lines 46-59): with a
key, a `Key` node is pushed first; the start marker records the index of
the `EmptyArray` placeholder pushed after it. -/
def bArray (b : BState) (okey : Option String) : OpResult :=
  match okey with
  | some k =>
    if keyRefused b.starts then .errored "can not use a key when pushing to an array"
    else
      let stack1 := b.stack ++ [GNode.key k]
      OpResult.ok
        { b with stack := stack1 ++ [GNode.arr []],
                 starts := b.starts ++ [(stack1.length : Int)] }
  | none =>
    if noKeyRefused b.starts then .errored "must have a key when pushing to an object"
    else
      OpResult.ok
        { b with stack := b.stack ++ [GNode.arr []],
                 starts := b.starts ++ [(b.stack.length : Int)] }

/-- Translation of `Builder.Value` (src/gen/builder.go lines 63-77): with a
key the value is attached to the object on top of the stack (silently
dropped if the top is not an object); without a key it is pushed. -/
def bValue (b : BState) (v : GNode) (okey : Option String) : OpResult :=
  match okey with
  | some k =>
    if keyRefused b.starts then .errored "can not use a key when pushing to an array"
    else
      match b.stack.getLast? with
      | none => OpResult.panicked
      | some top =>
        match top with
        | .objRef pr => OpResult.ok { b with heap := b.heap.set pr (setPair (b.heap.getD pr []) k v) }
        | _ => OpResult.ok b
  | none =>
    if noKeyRefused b.starts then .errored "must have a key when pushing to an object"
    else OpResult.ok { b with stack := b.stack ++ [v] }

/-- Translation of `Builder.Pop` (src/gen/builder.go lines 80-101).  `none`
stands for a Go slice-bounds panic, which no state reachable through the
builder API can trigger (every array marker indexes a pushed placeholder).
For an array frame the nodes above the marker are collected into an `arr`
node written at the marker slot; when a `Key` sits directly below the
marker slot above an object, the array is attached to that object under
the key and the `Key` and array are dropped from the stack. -/
def pop (b : BState) : Option BState :=
  match b.starts.getLast? with
  | none => some b
  | some start =>
    if 0 ≤ start then
      let st := start.toNat + 1
      if st ≤ b.stack.length then
        let a := GNode.arr (b.stack.drop st)
        let stack2 := (b.stack.take st).set (st - 1) a
        if 2 < stack2.length then
          match stack2[stack2.length - 2]?, stack2[stack2.length - 3]? with
          | some (.key k), some (.objRef r) =>
            some
              { heap := b.heap.set r (setPair (b.heap.getD r []) k a),
                stack := stack2.take (stack2.length - 2),
                starts := b.starts.dropLast }
          | _, _ => some { b with stack := stack2, starts := b.starts.dropLast }
        else some { b with stack := stack2, starts := b.starts.dropLast }
      else none
    else some { b with starts := b.starts.dropLast }

theorem pop_starts_eq (b b' : BState) (hne : b.starts ≠ []) (h : pop b = some b') :
    b'.starts = b.starts.dropLast := by
  unfold pop at h
  cases hgl : b.starts.getLast? with
  | none => exact absurd (List.getLast?_eq_none_iff.mp hgl) hne
  | some s =>
    rw [hgl] at h
    dsimp only at h
    split_ifs at h with h1 h2 h3
    · split at h <;> (cases h; rfl)
    · cases h; rfl
    · cases h; rfl

theorem pop_starts_lt (b b' : BState) (hne : b.starts ≠ []) (h : pop b = some b') :
    b'.starts.length < b.starts.length := by
  rw [pop_starts_eq b b' hne h, List.length_dropLast]
  have := List.length_pos.mpr hne
  omega

/-- Translation of `Builder.PopAll` (src/gen/builder.go lines 104-108): pop
until no frame is open.  The recursion is on the length of the start stack,
which `pop_starts_lt` shows every successful `pop` on a non-empty start
stack decreases. -/
def popAll (b : BState) : Option BState :=
  if h : b.starts = [] then some b
  else
    match hp : pop b with
    | none => none
    | some b' => popAll b'
termination_by b.starts.length
decreasing_by exact pop_starts_lt b b' h hp

/-- The kind of the innermost open frame. -/
inductive Frame where
  | objF
  | arrF
deriving DecidableEq

/-- The innermost open frame of a builder state: none when no frame is
open, an object frame for a `-1` marker, an array frame otherwise. -/
def innermostFrame (b : BState) : Option Frame :=
  match b.starts.getLast? with
  | none => none
  | some s => if s < 0 then some Frame.objF else some Frame.arrF

theorem keyRefused_iff_frame (b : BState) :
    keyRefused b.starts = true ↔
      innermostFrame b = none ∨ innermostFrame b = some Frame.arrF := by
  unfold keyRefused innermostFrame
  cases b.starts.getLast? with
  | none => simp
  | some s =>
    by_cases hs : s < 0 <;> simp [hs] <;> omega

theorem noKeyRefused_iff_frame (b : BState) :
    noKeyRefused b.starts = true ↔ innermostFrame b = some Frame.objF := by
  unfold noKeyRefused innermostFrame
  cases b.starts.getLast? with
  | none => simp
  | some s =>
    by_cases hs : s < 0 <;> simp [hs] <;> omega

theorem keyRefused_nil : keyRefused [] = true := rfl

theorem bObject_key_errored (b : BState) (k : String) :
    (bObject b (some k)).isErrored = keyRefused b.starts := by
  unfold bObject
  by_cases hkr : keyRefused b.starts
  · simp [hkr, OpResult.isErrored]
  · simp only [hkr, Bool.false_eq_true, if_false, eq_comm]
    cases hq : b.stack.getLast? with
    | none => simp [OpResult.isErrored, hkr]
    | some t => cases t <;> simp [OpResult.isErrored, hkr]

theorem bObject_nokey_errored (b : BState) :
    (bObject b none).isErrored = noKeyRefused b.starts := by
  unfold bObject
  by_cases hkr : noKeyRefused b.starts <;> simp [hkr, OpResult.isErrored]

theorem bArray_key_errored (b : BState) (k : String) :
    (bArray b (some k)).isErrored = keyRefused b.starts := by
  unfold bArray
  by_cases hkr : keyRefused b.starts <;> simp [hkr, OpResult.isErrored]

theorem bArray_nokey_errored (b : BState) :
    (bArray b none).isErrored = noKeyRefused b.starts := by
  unfold bArray
  by_cases hkr : noKeyRefused b.starts <;> simp [hkr, OpResult.isErrored]

theorem bValue_key_errored (b : BState) (v : GNode) (k : String) :
    (bValue b v (some k)).isErrored = keyRefused b.starts := by
  unfold bValue
  by_cases hkr : keyRefused b.starts
  · simp [hkr, OpResult.isErrored]
  · simp only [hkr, Bool.false_eq_true, if_false, eq_comm]
    cases hq : b.stack.getLast? with
    | none => simp [OpResult.isErrored, hkr]
    | some t => cases t <;> simp [OpResult.isErrored, hkr]

theorem bValue_nokey_errored (b : BState) (v : GNode) :
    (bValue b v none).isErrored = noKeyRefused b.starts := by
  unfold bValue
  by_cases hkr : noKeyRefused b.starts <;> simp [hkr, OpResult.isErrored]

theorem starts_ne_nil_of_not_keyRefused (b : BState)
    (hkr : ¬keyRefused b.starts = true) : b.starts ≠ [] := by
  intro hh
  exact hkr (by rw [hh]; rfl)

theorem getLast_of_ne_nil (l : List GNode) (h : l ≠ []) :
    ∃ t, l.getLast? = some t := by
  cases hq : l.getLast? with
  | none => exact absurd (List.getLast?_eq_none_iff.mp hq) h
  | some t => exact ⟨t, rfl⟩

theorem bObject_key_not_panicked (b : BState) (k : String)
    (hWF : b.starts ≠ [] → b.stack ≠ []) :
    (bObject b (some k)).isPanicked = false := by
  unfold bObject
  by_cases hkr : keyRefused b.starts
  · simp [hkr, OpResult.isPanicked]
  · obtain ⟨t, ht⟩ :=
      getLast_of_ne_nil b.stack (hWF (starts_ne_nil_of_not_keyRefused b hkr))
    simp only [hkr, Bool.false_eq_true, if_false, ht]
    cases t <;> simp [OpResult.isPanicked]

theorem bValue_key_not_panicked (b : BState) (v : GNode) (k : String)
    (hWF : b.starts ≠ [] → b.stack ≠ []) :
    (bValue b v (some k)).isPanicked = false := by
  unfold bValue
  by_cases hkr : keyRefused b.starts
  · simp [hkr, OpResult.isPanicked]
  · obtain ⟨t, ht⟩ :=
      getLast_of_ne_nil b.stack (hWF (starts_ne_nil_of_not_keyRefused b hkr))
    simp only [hkr, Bool.false_eq_true, if_false, ht]
    cases t <;> simp [OpResult.isPanicked]

theorem bObject_nokey_not_panicked (b : BState) :
    (bObject b none).isPanicked = false := by
  unfold bObject
  by_cases hkr : noKeyRefused b.starts <;> simp [hkr, OpResult.isPanicked]

theorem bArray_key_not_panicked (b : BState) (k : String) :
    (bArray b (some k)).isPanicked = false := by
  unfold bArray
  by_cases hkr : keyRefused b.starts <;> simp [hkr, OpResult.isPanicked]

theorem bArray_nokey_not_panicked (b : BState) :
    (bArray b none).isPanicked = false := by
  unfold bArray
  by_cases hkr : noKeyRefused b.starts <;> simp [hkr, OpResult.isPanicked]

theorem bValue_nokey_not_panicked (b : BState) (v : GNode) :
    (bValue b v none).isPanicked = false := by
  unfold bValue
  by_cases hkr : noKeyRefused b.starts <;> simp [hkr, OpResult.isPanicked]

/-- Claim C7 counterexample: on a fresh builder with no open frame at all,
`Object` with a key still returns the misuse error, although the innermost
open frame is not an array (there is none).  The claim's "exactly when"
therefore fails. -/
theorem C7_counterexample_key_with_no_frame :
    (bObject ⟨[], [], []⟩ (some "k")).isErrored = true ∧
    innermostFrame ⟨[], [], []⟩ = none := by
  exact ⟨rfl, rfl⟩

/-- Claim C7 as amended: on every builder state in which an open frame
implies a non-empty node stack (an invariant of all states the builder API
produces), `Object`, `Array` and `Value` return the misuse error exactly
when a key is supplied while there is no open frame or the innermost open
frame is an array, or when no key is supplied while the innermost open
frame is an object; and none of the three operations panics. -/
theorem C7_builder_misuse_errors (b : BState) (v : GNode) (k : String)
    (hWF : b.starts ≠ [] → b.stack ≠ []) :
    ((bObject b (some k)).isErrored = true ↔
      innermostFrame b = none ∨ innermostFrame b = some Frame.arrF) ∧
    ((bObject b none).isErrored = true ↔ innermostFrame b = some Frame.objF) ∧
    ((bArray b (some k)).isErrored = true ↔
      innermostFrame b = none ∨ innermostFrame b = some Frame.arrF) ∧
    ((bArray b none).isErrored = true ↔ innermostFrame b = some Frame.objF) ∧
    ((bValue b v (some k)).isErrored = true ↔
      innermostFrame b = none ∨ innermostFrame b = some Frame.arrF) ∧
    ((bValue b v none).isErrored = true ↔ innermostFrame b = some Frame.objF) ∧
    (bObject b (some k)).isPanicked = false ∧
    (bObject b none).isPanicked = false ∧
    (bArray b (some k)).isPanicked = false ∧
    (bArray b none).isPanicked = false ∧
    (bValue b v (some k)).isPanicked = false ∧
    (bValue b v none).isPanicked = false := by
  refine ⟨?_, ?_, ?_, ?_, ?_, ?_,
    bObject_key_not_panicked b k hWF, bObject_nokey_not_panicked b,
    bArray_key_not_panicked b k, bArray_nokey_not_panicked b,
    bValue_key_not_panicked b v k hWF, bValue_nokey_not_panicked b v⟩
  · rw [bObject_key_errored]; exact keyRefused_iff_frame b
  · rw [bObject_nokey_errored]; exact noKeyRefused_iff_frame b
  · rw [bArray_key_errored]; exact keyRefused_iff_frame b
  · rw [bArray_nokey_errored]; exact noKeyRefused_iff_frame b
  · rw [bValue_key_errored]; exact keyRefused_iff_frame b
  · rw [bValue_nokey_errored]; exact noKeyRefused_iff_frame b

/-- Witness for C7's amended theorem on a concrete state with an open
object frame. -/
theorem C7_builder_misuse_witness :
    ((bObject ⟨[[]], [GNode.objRef 0], [-1]⟩ none).isErrored = true ↔
      innermostFrame ⟨[[]], [GNode.objRef 0], [-1]⟩ = some Frame.objF) ∧
    (bValue ⟨[[]], [GNode.objRef 0], [-1]⟩ GNode.null (some "x")).isPanicked = false := by
  have hWF : (⟨[[]], [GNode.objRef 0], [-1]⟩ : BState).starts ≠ [] →
      (⟨[[]], [GNode.objRef 0], [-1]⟩ : BState).stack ≠ [] :=
    fun _ => by simp
  refine ⟨(C7_builder_misuse_errors ⟨[[]], [GNode.objRef 0], [-1]⟩ GNode.null "x" hWF).2.1,
    (C7_builder_misuse_errors ⟨[[]], [GNode.objRef 0], [-1]⟩ GNode.null "x" hWF).2.2.2.2.2.2.2.2.2.2.1⟩

theorem popAll_starts_nil_aux :
    ∀ (n : Nat) (b b2 : BState), b.starts.length ≤ n → popAll b = some b2 →
      b2.starts = [] := by
  intro n
  induction n with
  | zero =>
    intro b b2 hlen h
    have he : b.starts = [] := List.eq_nil_of_length_eq_zero (Nat.le_zero.mp hlen)
    unfold popAll at h
    rw [dif_pos he] at h
    cases h
    exact he
  | succ n ih =>
    intro b b2 hlen h
    unfold popAll at h
    by_cases he : b.starts = []
    · rw [dif_pos he] at h
      cases h
      exact he
    · rw [dif_neg he] at h
      cases hp : pop b with
      | none => rw [hp] at h; cases h
      | some b' =>
        rw [hp] at h
        apply ih b' b2 _ h
        rw [pop_starts_eq b b' he hp, List.length_dropLast]
        have := List.length_pos.mpr he
        omega

/-- Claim C9: `Pop` on a builder with no open frames (empty starts stack)
returns the state unchanged and does not panic; every successful `Pop` on a
non-empty starts stack removes exactly one start marker, which is the
measure by which `popAll` (the translation of `PopAll`) is defined and
terminates; and a completed `PopAll` leaves no open frame. -/
theorem C9_pop_empty_noop_popAll_terminates (b b1 b2 : BState) :
    pop { b with starts := [] } = some { b with starts := [] } ∧
    (b.starts ≠ [] → pop b = some b1 → b1.starts.length + 1 = b.starts.length) ∧
    (popAll b = some b2 → b2.starts = []) := by
  refine ⟨rfl, ?_, ?_⟩
  · intro hne hp
    rw [pop_starts_eq b b1 hne hp, List.length_dropLast]
    have := List.length_pos.mpr hne
    omega
  · intro h
    exact popAll_starts_nil_aux b.starts.length b b2 le_rfl h

/-- Witness for C9 on a concrete one-frame builder state. -/
theorem C9_witness :
    pop ⟨[], [GNode.arr []], ([] : List Int)⟩ = some ⟨[], [GNode.arr []], []⟩ ∧
    ((⟨[], [GNode.arr []], [0]⟩ : BState).starts ≠ [] ∧
      pop ⟨[], [GNode.arr []], [0]⟩ = some ⟨[], [GNode.arr []], []⟩ ∧
      (⟨[], [GNode.arr []], []⟩ : BState).starts.length + 1 =
        (⟨[], [GNode.arr []], [0]⟩ : BState).starts.length) ∧
    (popAll ⟨[], [GNode.arr []], [0]⟩ = some ⟨[], [GNode.arr []], []⟩ ∧
      (⟨[], [GNode.arr []], []⟩ : BState).starts = []) := by
  have hp : pop (⟨[], [GNode.arr []], [0]⟩ : BState) =
      some ⟨[], [GNode.arr []], []⟩ := rfl
  have hpa : popAll (⟨[], [GNode.arr []], [0]⟩ : BState) =
      some ⟨[], [GNode.arr []], []⟩ := by
    unfold popAll
    rw [dif_neg (by simp), hp]
    unfold popAll
    rw [dif_pos rfl]
  refine ⟨(C9_pop_empty_noop_popAll_terminates ⟨[], [GNode.arr []], []⟩
      ⟨[], [GNode.arr []], []⟩ ⟨[], [GNode.arr []], []⟩).1,
    ⟨by simp, hp,
      (C9_pop_empty_noop_popAll_terminates ⟨[], [GNode.arr []], [0]⟩
        ⟨[], [GNode.arr []], []⟩ ⟨[], [GNode.arr []], []⟩).2.1
        (by simp) hp⟩,
    ⟨hpa,
      (C9_pop_empty_noop_popAll_terminates ⟨[], [GNode.arr []], [0]⟩
        ⟨[], [GNode.arr []], []⟩ ⟨[], [GNode.arr []], []⟩).2.2 hpa⟩⟩

theorem set_concat_last {α : Type} (xs : List α) (y a : α) :
    (xs ++ [y]).set xs.length a = xs ++ [a] := by
  induction xs with
  | nil => rfl
  | cons x xs ih =>
    show x :: ((xs ++ [y]).set xs.length a) = x :: (xs ++ [a])
    rw [ih]

theorem pop_array_case (heap : List (List (String × GNode))) (ss : List Int)
    (u : List GNode) (ph : GNode) (elems : List GNode) :
    pop ⟨heap, (u ++ [ph]) ++ elems, ss ++ [(u.length : Int)]⟩ =
      (if 2 < (u ++ [GNode.arr elems]).length then
        match (u ++ [GNode.arr elems])[(u ++ [GNode.arr elems]).length - 2]?,
              (u ++ [GNode.arr elems])[(u ++ [GNode.arr elems]).length - 3]? with
        | some (.key k), some (.objRef r) =>
          some ⟨heap.set r (setPair (heap.getD r []) k (GNode.arr elems)),
                (u ++ [GNode.arr elems]).take ((u ++ [GNode.arr elems]).length - 2), ss⟩
        | _, _ => some ⟨heap, u ++ [GNode.arr elems], ss⟩
      else some ⟨heap, u ++ [GNode.arr elems], ss⟩) := by
  unfold pop
  simp only [List.getLast?_concat, Int.toNat_natCast]
  rw [if_pos (show (0 : Int) ≤ (u.length : Int) by omega)]
  rw [if_pos (show u.length + 1 ≤ ((u ++ [ph]) ++ elems).length by simp)]
  rw [List.drop_left' (show (u ++ [ph]).length = u.length + 1 by simp)]
  rw [List.take_left' (show (u ++ [ph]).length = u.length + 1 by simp)]
  rw [show u.length + 1 - 1 = u.length by omega]
  rw [set_concat_last]
  rw [List.dropLast_concat]

/-- Claim C8: on a builder state whose innermost open frame is an array
(last start marker non-negative, pointing at the placeholder slot), `Pop`
collects the nodes above the marker into an `Array` node written at the
marker slot; and when the array was opened with a key inside a parent
object — a `Key` node sits directly below the marker slot, above an object
node — `Pop` attaches the collected array to that object under the key and
removes the `Key` (and the array) from the stack.  The first conjunct is
the keyed case for an arbitrary stack prefix `w`, arbitrary collected
elements and arbitrary heap; the second is the plain root-level case where
the array is left at the marker slot. -/
theorem C8_pop_array_collects_and_attaches
    (heap : List (List (String × GNode))) (ss : List Int) (w : List GNode)
    (r : Nat) (k : String) (ph : GNode) (elems : List GNode) :
    pop ⟨heap, w ++ GNode.objRef r :: GNode.key k :: ph :: elems,
         ss ++ [((w.length + 2 : Nat) : Int)]⟩
      = some ⟨heap.set r (setPair (heap.getD r []) k (GNode.arr elems)),
              w ++ [GNode.objRef r], ss⟩ ∧
    pop ⟨heap, ph :: elems, ss ++ [(0 : Int)]⟩
      = some ⟨heap, [GNode.arr elems], ss⟩ := by
  constructor
  · have h1 : w ++ GNode.objRef r :: GNode.key k :: ph :: elems
        = ((w ++ [GNode.objRef r, GNode.key k]) ++ [ph]) ++ elems := by simp
    have h2 : ((w.length + 2 : Nat) : Int)
        = ((w ++ [GNode.objRef r, GNode.key k]).length : Int) := by simp
    rw [h1, h2, pop_array_case]
    have hl : ((w ++ [GNode.objRef r, GNode.key k]) ++ [GNode.arr elems]).length
        = w.length + 3 := by simp
    rw [hl]
    rw [if_pos (show 2 < w.length + 3 by omega)]
    rw [show w.length + 3 - 2 = w.length + 1 by omega]
    rw [show w.length + 3 - 3 = w.length by omega]
    have hkey : ((w ++ [GNode.objRef r, GNode.key k]) ++ [GNode.arr elems])[w.length + 1]?
        = some (GNode.key k) := by
      have e : (w ++ [GNode.objRef r, GNode.key k]) ++ [GNode.arr elems]
          = (w ++ [GNode.objRef r]) ++ (GNode.key k :: [GNode.arr elems]) := by simp
      rw [e, List.getElem?_append_right (by simp)]
      simp
    have hobj : ((w ++ [GNode.objRef r, GNode.key k]) ++ [GNode.arr elems])[w.length]?
        = some (GNode.objRef r) := by
      have e : (w ++ [GNode.objRef r, GNode.key k]) ++ [GNode.arr elems]
          = w ++ (GNode.objRef r :: GNode.key k :: [GNode.arr elems]) := by simp
      rw [e, List.getElem?_append_right (by simp)]
      simp
    have htake : ((w ++ [GNode.objRef r, GNode.key k]) ++ [GNode.arr elems]).take (w.length + 1)
        = w ++ [GNode.objRef r] := by
      have e : (w ++ [GNode.objRef r, GNode.key k]) ++ [GNode.arr elems]
          = (w ++ [GNode.objRef r]) ++ (GNode.key k :: [GNode.arr elems]) := by simp
      rw [e, List.take_left' (by simp)]
    rw [hkey, hobj, htake]
  · simpa using pop_array_case heap ss [] ph elems

mutual
inductive WVal where
  | null : WVal
  | boolV : Bool → WVal
  | intV : Int → WVal
  | uintV : Nat → WVal
  | fltV : GoFloat → WVal
  | strV : List Char → WVal
  | timeV : Int → WVal
  | arrV : WList → WVal
  | objV : WObj → WVal
  | otherV : List Char → WVal
inductive WList where
  | nil : WList
  | cons : WVal → WList → WList
inductive WObj where
  | nil : WObj
  | cons : List Char → WVal → WObj → WObj
end

/-- The Writer state that `MustJSON`/`JSON` thread: the embedded Options,
the `strict` field, the byte buffer, and (as environment) Go's layout time
formatter used by `appendTime`'s default branch.  The sink `w` is nil for
the whole of `MustJSON` (line 49), so it is not modelled; `findex` concerns
the struct-field cache, which no claim exercises. -/
structure Wr where
  opts : Options
  strict : Bool
  buf : List Char
  tfmt : Int → String → String

/-- The constant `spaces` (src/unnamed/part_001 line 19): a newline and 128
spaces. -/
def spacesC : List Char := '\n' :: List.replicate 128 ' '

/-- The constant `tabs` (src/unnamed/part_001 line 20): a newline and 30
tabs. -/
def tabsC : List Char := '\n' :: List.replicate 30 '\t'

/-- The `is`/`cs` indent-slice computation shared by the indented append
functions (e.g. lines 279-304): `is` is the opener-line indent without the
leading newline, `cs` the between-element indent with it.  Go's
`x := depth*Indent + 1; if len < x then x = len` capping is the `min`. -/
def indentSlices (tab : Bool) (indent : Int) (depth : Nat) : List Char × List Char :=
  if tab then
    let x1 := min (depth + 1) tabsC.length
    let x2 := min (depth + 1 + 1) tabsC.length
    ((tabsC.take x1).drop 1, tabsC.take x2)
  else
    let x1 := (min ((depth : Int) * indent + 1) (spacesC.length : Int)).toNat
    let x2 := (min (((depth : Int) + 1) * indent + 1) (spacesC.length : Int)).toNat
    ((spacesC.take x1).drop 1, spacesC.take x2)

/-- Overwrite of the last buffer byte, `buf[len(buf)-1] = c`. -/
def replaceLast (l : List Char) (c : Char) : List Char := l.dropLast ++ [c]

/-- The function-pointer selection of `MustJSON` (lines 61-77): the tight
family is installed exactly when neither `Tab` nor a positive `Indent` is
set. -/
def tightMode (o : Options) : Bool := !(o.Tab || decide (0 < o.Indent))

/-- Translation of `appendDefault` (src/unnamed/part_001 lines 201-237)
restricted to values with no `Generic`/`Simplify` capability and a
non-struct, non-slice, non-map reflective kind (`otherV` carries the
`fmt "%v"` printed form of such a value — a channel, function or complex).
With reflection allowed, `alt.Decompose` reduces such a value to its
printed-form string (spec §4.2 step 3), which `appendJSON` then emits as a
JSON string; under `NoReflect` with `strict` the call panics, and without
`strict` the printed form is emitted as a JSON string directly. -/
def appendDefaultW (wr : Wr) (printed : List Char) : Except (Wr × String) Wr :=
  if !wr.opts.NoReflect then
    .ok { wr with buf := appendJSONStringModel wr.buf printed (!wr.opts.HTMLUnsafe) }
  else if wr.strict then
    .error (wr, "can not be encoded as a JSON element")
  else
    .ok { wr with buf := appendJSONStringModel wr.buf printed (!wr.opts.HTMLUnsafe) }

mutual
/-- Translation of `Writer.appendJSON` (src/unnamed/part_001 lines 136-199)
over the modelled value grammar, threading the buffer through `Except` so
that a Go panic surfaces as `.error` carrying the Writer state at the
panic.  `w` is nil throughout `MustJSON`, so the trailing `WriteLimit`
flush (lines 193-198) never fires and is not modelled.  The object cases
install `appendObject`/`tightObject`; the `Sort` variants differ from
those only in the order keys are emitted, which claim C1 models
separately. -/
def appendJSONW (wr : Wr) (v : WVal) (depth : Nat) : Except (Wr × String) Wr :=
  match v with
  | .null => .ok { wr with buf := wr.buf ++ "null".toList }
  | .boolV b =>
    .ok { wr with buf := wr.buf ++ (if b then "true".toList else "false".toList) }
  | .intV i => .ok { wr with buf := wr.buf ++ formatInt i }
  | .uintV n => .ok { wr with buf := wr.buf ++ natDec n }
  | .fltV f => .ok { wr with buf := wr.buf ++ (strconvFormatFloat f).toList }
  | .strV s => .ok { wr with buf := appendJSONStringModel wr.buf s (!wr.opts.HTMLUnsafe) }
  | .timeV nano => .ok { wr with buf := appendTime wr.tfmt wr.opts wr.buf nano }
  | .arrV l =>
    if tightMode wr.opts then tightArrayW wr l depth else appendArrayW wr l depth
  | .objV m =>
    if tightMode wr.opts then tightObjectW wr m depth else appendObjectW wr m depth
  | .otherV printed => appendDefaultW wr printed
/-- Translation of `appendArray` (src/unnamed/part_001 lines 278-318). -/
def appendArrayW (wr : Wr) (l : WList) (depth : Nat) : Except (Wr × String) Wr :=
  let iscs := indentSlices wr.opts.Tab wr.opts.Indent depth
  match l with
  | .nil => .ok { wr with buf := wr.buf ++ ['[', ']'] }
  | .cons v rest =>
    match appendArrayElemsW { wr with buf := wr.buf ++ ['['] } (WList.cons v rest)
        (depth + 1) iscs.2 with
    | .error e => .error e
    | .ok wr2 => .ok { wr2 with buf := replaceLast wr2.buf '\n' ++ iscs.1 ++ [']'] }
/-- The element loop of `appendArray`: indent, element, comma. -/
def appendArrayElemsW (wr : Wr) (l : WList) (d2 : Nat) (cs : List Char) :
    Except (Wr × String) Wr :=
  match l with
  | .nil => .ok wr
  | .cons v rest =>
    match appendJSONW { wr with buf := wr.buf ++ cs } v d2 with
    | .error e => .error e
    | .ok wr2 => appendArrayElemsW { wr2 with buf := wr2.buf ++ [','] } rest d2 cs
/-- Translation of `appendObject` (src/unnamed/part_001 lines 320-366). -/
def appendObjectW (wr : Wr) (m : WObj) (depth : Nat) : Except (Wr × String) Wr :=
  let iscs := indentSlices wr.opts.Tab wr.opts.Indent depth
  match appendObjectEntriesW { wr with buf := wr.buf ++ [obC] } m (depth + 1) iscs.2 with
  | .error e => .error e
  | .ok (wr2, empty) =>
    if empty then .ok { wr2 with buf := wr2.buf ++ [cbC] }
    else .ok { wr2 with buf := replaceLast wr2.buf '\n' ++ iscs.1 ++ [cbC] }
/-- The entry loop of `appendObject`: skip nil values under `OmitNil`, else
indent, escaped key, ": ", value, comma; the Bool is the `empty` flag. -/
def appendObjectEntriesW (wr : Wr) (m : WObj) (d2 : Nat) (cs : List Char) :
    Except (Wr × String) (Wr × Bool) :=
  match m with
  | .nil => .ok (wr, true)
  | .cons k v rest =>
    if (match v with | WVal.null => true | _ => false) && wr.opts.OmitNil then
      appendObjectEntriesW wr rest d2 cs
    else
      match appendJSONW { wr with
          buf := appendJSONStringModel (wr.buf ++ cs) k (!wr.opts.HTMLUnsafe) ++ [':', ' '] }
        v d2 with
      | .error e => .error e
      | .ok wr2 =>
        match appendObjectEntriesW { wr2 with buf := wr2.buf ++ [','] } rest d2 cs with
        | .error e => .error e
        | .ok (wr3, _) => .ok (wr3, false)
/-- Modelled from the spec: `tightArray` (package oj, not under src/).  Per
§4.4, compact arrays are `[v1,v2]` with no whitespace; empty is `[]`. -/
def tightArrayW (wr : Wr) (l : WList) (depth : Nat) : Except (Wr × String) Wr :=
  match l with
  | .nil => .ok { wr with buf := wr.buf ++ ['[', ']'] }
  | .cons v rest =>
    match tightArrayElemsW { wr with buf := wr.buf ++ ['['] } (WList.cons v rest)
        (depth + 1) with
    | .error e => .error e
    | .ok wr2 => .ok { wr2 with buf := replaceLast wr2.buf ']' }
/-- The element loop of the compact array emission. -/
def tightArrayElemsW (wr : Wr) (l : WList) (d2 : Nat) : Except (Wr × String) Wr :=
  match l with
  | .nil => .ok wr
  | .cons v rest =>
    match appendJSONW wr v d2 with
    | .error e => .error e
    | .ok wr2 => tightArrayElemsW { wr2 with buf := wr2.buf ++ [','] } rest d2
/-- Modelled from the spec: `tightObject` (package oj, not under src/).  Per
§4.4, compact objects are `{"k":v,"k2":v2}` with no spaces, `OmitNil`
entries skipped, empty emits the two braces. -/
def tightObjectW (wr : Wr) (m : WObj) (depth : Nat) : Except (Wr × String) Wr :=
  match tightObjectEntriesW { wr with buf := wr.buf ++ [obC] } m (depth + 1) with
  | .error e => .error e
  | .ok (wr2, empty) =>
    if empty then .ok { wr2 with buf := wr2.buf ++ [cbC] }
    else .ok { wr2 with buf := replaceLast wr2.buf cbC }
/-- The entry loop of the compact object emission. -/
def tightObjectEntriesW (wr : Wr) (m : WObj) (d2 : Nat) :
    Except (Wr × String) (Wr × Bool) :=
  match m with
  | .nil => .ok (wr, true)
  | .cons k v rest =>
    if (match v with | WVal.null => true | _ => false) && wr.opts.OmitNil then
      tightObjectEntriesW wr rest d2
    else
      match appendJSONW { wr with
          buf := appendJSONStringModel wr.buf k (!wr.opts.HTMLUnsafe) ++ [':'] } v d2 with
      | .error e => .error e
      | .ok wr2 =>
        match tightObjectEntriesW { wr2 with buf := wr2.buf ++ [','] } rest d2 with
        | .error e => .error e
        | .ok (wr3, _) => .ok (wr3, false)
end

/-- Translation of `Writer.MustJSON` (src/unnamed/part_001 lines 48-81):
`w` is set to nil, `InitSize` is defaulted (the Options effect is
`mustJSONOptions`), the buffer's logical content is reset to empty (the
capacity handling affects only allocation), the append family is selected
by `tightMode`, and `appendJSON` runs at depth 0.  A panic anywhere inside
surfaces as `.error` carrying the Writer state at the panic. -/
def mustJSONW (wr : Wr) (v : WVal) : Except (Wr × String) Wr :=
  let wr1 := { wr with opts := mustJSONOptions wr.opts }
  let wr2 := { wr1 with buf := [] }
  appendJSONW wr2 v 0

/-- Translation of `Writer.JSON` (src/unnamed/part_001 lines 37-44):
delegate to `MustJSON`; a recovered panic truncates the buffer to length
zero and the function returns the zero-value string; the error itself is
discarded (the return type carries no error). -/
def writerJSON (wr : Wr) (v : WVal) : Wr × List Char :=
  match mustJSONW wr v with
  | .ok wr2 => (wr2, wr2.buf)
  | .error (wrE, _) => ({ wrE with buf := [] }, [])

/-- Claim C5: for every input value on which encoding raises an error,
`Writer.JSON` returns the empty string, the writer's buffer is reset to
length zero, and the error is not propagated to the caller — `writerJSON`
returns a plain pair, with no error component, whatever `mustJSONW` does. -/
theorem C5_json_error_empty_reset (wr : Wr) (v : WVal) (wrE : Wr) (msg : String)
    (h : mustJSONW wr v = .error (wrE, msg)) :
    writerJSON wr v = ({ wrE with buf := [] }, []) ∧
    (writerJSON wr v).2 = [] ∧
    (writerJSON wr v).1.buf = [] := by
  unfold writerJSON
  rw [h]
  exact ⟨rfl, rfl, rfl⟩

/-- Witness for C5: a Writer with `NoReflect` and the strict flag set,
encoding a value with no fast path (a channel), panics inside
`appendDefault`; `JSON` swallows it. -/
theorem C5_witness :
    mustJSONW ⟨{ NoReflect := true, Indent := 1 }, true, ['x'], fun _ _ => ""⟩
        (.otherV "chan".toList)
      = .error (⟨{ NoReflect := true, Indent := 1, InitSize := 256 }, true, [], fun _ _ => ""⟩,
          "can not be encoded as a JSON element") ∧
    writerJSON ⟨{ NoReflect := true, Indent := 1 }, true, ['x'], fun _ _ => ""⟩
        (.otherV "chan".toList)
      = (⟨{ NoReflect := true, Indent := 1, InitSize := 256 }, true, [], fun _ _ => ""⟩, []) := by
  have h : mustJSONW ⟨{ NoReflect := true, Indent := 1 }, true, ['x'], fun _ _ => ""⟩
        (.otherV "chan".toList)
      = .error (⟨{ NoReflect := true, Indent := 1, InitSize := 256 }, true, [], fun _ _ => ""⟩,
          "can not be encoded as a JSON element") := by
    simp [mustJSONW, appendJSONW, appendDefaultW, tightMode, mustJSONOptions]
  exact ⟨h, (C5_json_error_empty_reset _ _ _ _ h).1⟩
